import Mathlib

/- Verification development for the eml export engine of the msg-reader
   repository (src/js/emlExport.js).  The engine is shallowly embedded:
   JS strings become Lean `String`s (sequences of characters), absent or
   null fields become `Option`, byte buffers become `List Nat` with the
   side condition that each byte is below 256, and every function is a
   total computable Lean definition mirroring the corresponding source
   function line by line.  The two impure ingredients of the source —
   `makeBoundary` (Math.random/Date.now) and the JS `Date` rendering used
   by `getMessageDate` — are supplied as an explicit environment value
   `EmlEnv`, so that every run of the engine is a pure function of the
   message and that environment. -/

set_option maxRecDepth 8000

/-- Result of a JS `field || ''` read: an absent field reads as the empty
string, and an empty string stays empty. -/
def jsStr (o : Option String) : String := o.getD ""

/-- JS `a || d` for an optional string value `a`: an absent or empty
(falsy) string falls through to the default `d`. -/
def jsOrS (o : Option String) (d : String) : String :=
  match o with
  | some s => if s = "" then d else s
  | none => d

/-- JS truthiness of an optional string: present and non-empty. -/
def jsTruthyS (o : Option String) : Bool :=
  match o with
  | some s => !(s == "")
  | none => false

/-- The character class `[\x00-\x1f\x7f]` used by the source's sanitizers. -/
def isCtrl (c : Char) : Bool := decide (c.toNat ≤ 31 ∨ c.toNat = 127)

/-- The character class `[\r\n]`. -/
def isNlChar (c : Char) : Bool := decide (c = '\r' ∨ c = '\n')

/-- The JS `String.prototype.trim` whitespace class (WhiteSpace and
LineTerminator code points). -/
def isJsWs (c : Char) : Bool :=
  decide (c.toNat = 0x09 ∨ c.toNat = 0x0A ∨ c.toNat = 0x0B ∨ c.toNat = 0x0C ∨
    c.toNat = 0x0D ∨ c.toNat = 0x20 ∨ c.toNat = 0xA0 ∨ c.toNat = 0x1680 ∨
    (0x2000 ≤ c.toNat ∧ c.toNat ≤ 0x200A) ∨ c.toNat = 0x2028 ∨ c.toNat = 0x2029 ∨
    c.toNat = 0x202F ∨ c.toNat = 0x205F ∨ c.toNat = 0x3000 ∨ c.toNat = 0xFEFF)

/-- Strip JS whitespace from both ends of a character list (JS `trim`). -/
def trimList (l : List Char) : List Char :=
  ((l.dropWhile isJsWs).reverse.dropWhile isJsWs).reverse

/-- JS `String.prototype.trim`. -/
def jsTrim (s : String) : String := ⟨trimList s.data⟩

/-- `replace(/[\x00-\x1f\x7f]/g, ' ')` : every control character becomes
one space. -/
def mapCtrlSpace (l : List Char) : List Char :=
  l.map (fun c => if isCtrl c then ' ' else c)

/-- `replace(/[\r\n]+/g, ' ')` : every maximal run of CR/LF characters
becomes one space.  `inRun` records whether the scanner is inside a run
whose space has already been emitted. -/
def collapseNlAux (inRun : Bool) : List Char → List Char
  | [] => []
  | c :: r =>
    if isNlChar c then
      if inRun then collapseNlAux true r else ' ' :: collapseNlAux true r
    else c :: collapseNlAux false r

/-- emlExport.js lines 4-10, `sanitizeHeaderValue`: control characters to a
space each, CR/LF runs to a space, then trim. -/
def sanitizeHeaderValue (v : String) : String :=
  ⟨trimList (collapseNlAux false (mapCtrlSpace v.data))⟩

/-- JS `str.replace(/p1p2p3/g, '')` for a three-character literal pattern:
one left-to-right pass removing non-overlapping occurrences, never
rescanning the already-produced output. -/
def removeTriple (p1 p2 p3 : Char) : List Char → List Char
  | [] => []
  | [a] => [a]
  | [a, b] => [a, b]
  | a :: b :: c :: r =>
    if a = p1 ∧ b = p2 ∧ c = p3 then removeTriple p1 p2 p3 r
    else a :: removeTriple p1 p2 p3 (b :: c :: r)

/-- `replace(/^[A-Za-z]:[\\/]/g, '')` : one drive-letter prefix removed at
the start of the string (the anchor keeps the global flag from matching
again). -/
def dropDrive : List Char → List Char
  | a :: b :: c :: r =>
    if (decide (('A' ≤ a ∧ a ≤ 'Z') ∨ ('a' ≤ a ∧ a ≤ 'z')) &&
        (b == ':') && (c == '/' || c == '\\')) then r
    else a :: b :: c :: r
  | l => l

/-- The character class `[<>:"|?*]` of `sanitizeFilename`. -/
def bannedPunct (c : Char) : Bool :=
  decide (c = '<' ∨ c = '>' ∨ c = ':' ∨ c = '"' ∨ c = '|' ∨ c = '?' ∨ c = '*')

/-- The character class `[/\\]` of `sanitizeFilename`. -/
def slashChar (c : Char) : Bool := decide (c = '/' ∨ c = '\\')

/-- emlExport.js lines 13-21: the character list of `sanitizeFilename`
before trimming — traversal removal, leading slashes, drive prefix,
control removal, and the two substitution passes, in source order. -/
def sanitizeFilenameMapped (s : String) : List Char :=
  (((dropDrive
          ((removeTriple '.' '.' '\\' (removeTriple '.' '.' '/' s.data)).dropWhile
            (fun c => c == '/'))).filter
        (fun c => !(isCtrl c))).map
      (fun c => if bannedPunct c then '_' else c)).map
    (fun c => if slashChar c then '_' else c)

/-- emlExport.js lines 12-22: the sanitization pipeline of
`sanitizeFilename` before the fallback. -/
def sanitizeFilenameCore (s : String) : String := ⟨trimList (sanitizeFilenameMapped s)⟩

/-- emlExport.js lines 12-25, `sanitizeFilename`: sanitize, fall back to
`message.eml` when everything was stripped. -/
def sanitizeFilename (s : String) : String :=
  if sanitizeFilenameCore s = "" then "message.eml" else sanitizeFilenameCore s

/-- `replace(/\r\n/g, '\n')`. -/
def stripCrlfPairs : List Char → List Char
  | '\r' :: '\n' :: r => '\n' :: stripCrlfPairs r
  | c :: r => c :: stripCrlfPairs r
  | [] => []

/-- `replace(/\r/g, '\n')`. -/
def crAllToNl (l : List Char) : List Char :=
  l.map (fun c => if c = '\r' then '\n' else c)

/-- `replace(/\n/g, CRLF)`. -/
def nlToCrlf (l : List Char) : List Char :=
  (l.map (fun c => if c = '\n' then ['\r', '\n'] else [c])).flatten

/-- emlExport.js lines 27-32, `normalizeLineEndings`: CRLF to LF, CR to
LF, LF to CRLF. -/
def normalizeLineEndings (s : String) : String :=
  ⟨nlToCrlf (crAllToNl (stripCrlfPairs s.data))⟩

/-- The standard base64 alphabet. -/
def base64Alphabet : List Char :=
  "ABCDEFGHIJKLMNOPQRSTUVWXYZabcdefghijklmnopqrstuvwxyz0123456789+/".data

/-- Character of a 6-bit value in the base64 alphabet. -/
def b64char (n : Nat) : Char := base64Alphabet.getD n 'A'

/-- 6-bit value of a base64 character (inverse of `b64char` on the
alphabet). -/
def b64val (c : Char) : Nat := base64Alphabet.indexOf c

/-- Standard base64 of a byte list (big-endian 3-byte groups, `=`
padding); this is the net effect of `String.fromCharCode` + `btoa` in
emlExport.js lines 34-44. -/
def base64EncodeList : List Nat → List Char
  | [] => []
  | [a] => [b64char (a / 4), b64char (a % 4 * 16), '=', '=']
  | [a, b] => [b64char (a / 4), b64char (a % 4 * 16 + b / 16), b64char (b % 16 * 4), '=']
  | a :: b :: c :: rest =>
    b64char (a / 4) :: b64char (a % 4 * 16 + b / 16) ::
    b64char (b % 16 * 4 + c / 64) :: b64char (c % 64) :: base64EncodeList rest

/-- emlExport.js lines 34-44, `base64EncodeBytes` (the 0x8000 chunking of
the source is a call-size workaround with no observable effect). -/
def base64EncodeBytes (bytes : List Nat) : String := ⟨base64EncodeList bytes⟩

/-- Base64 decoding, groups of four characters with `=` padding. -/
def base64DecodeList : List Char → List Nat
  | c0 :: c1 :: c2 :: c3 :: rest =>
    if c2 = '=' then [b64val c0 * 4 + b64val c1 / 16]
    else if c3 = '=' then
      [b64val c0 * 4 + b64val c1 / 16, b64val c1 % 16 * 16 + b64val c2 / 4]
    else
      (b64val c0 * 4 + b64val c1 / 16) ::
      (b64val c1 % 16 * 16 + b64val c2 / 4) ::
      (b64val c2 % 4 * 64 + b64val c3) :: base64DecodeList rest
  | _ => []

/-- UTF-8 bytes of one Unicode scalar value (the `TextEncoder` encoding). -/
def utf8EncodeChar (c : Char) : List Nat :=
  if c.toNat < 0x80 then [c.toNat]
  else if c.toNat < 0x800 then [0xC0 + c.toNat / 64, 0x80 + c.toNat % 64]
  else if c.toNat < 0x10000 then
    [0xE0 + c.toNat / 4096, 0x80 + c.toNat / 64 % 64, 0x80 + c.toNat % 64]
  else
    [0xF0 + c.toNat / 262144, 0x80 + c.toNat / 4096 % 64,
     0x80 + c.toNat / 64 % 64, 0x80 + c.toNat % 64]

/-- UTF-8 bytes of a string (`new TextEncoder().encode(text)`). -/
def utf8Encode (s : String) : List Nat :=
  (s.data.map utf8EncodeChar).flatten

/-- emlExport.js lines 46-50, `base64EncodeUtf8`. -/
def base64EncodeUtf8 (text : String) : String := base64EncodeBytes (utf8Encode text)

/-- The canonical line terminator (emlExport.js line 1). -/
def crlf : String := "\r\n"

/-- Split a character list into consecutive chunks of 76 characters (the
slice loop of `wrapBase64`); the fuel argument is initialized with the
list length, which always suffices since every step consumes at least one
character. -/
def chunksFuel : Nat → List Char → List (List Char)
  | _, [] => []
  | 0, _ :: _ => []
  | fuel + 1, c :: r => ((c :: r).take 76) :: chunksFuel fuel ((c :: r).drop 76)

/-- The chunk lines pushed by `wrapBase64` (emlExport.js lines 55-58). -/
def wrapLines (s : String) : List String :=
  (chunksFuel s.data.length s.data).map (fun l => ⟨l⟩)

/-- `Array.prototype.join(sep)`. -/
def joinWith (sep : String) : List String → String
  | [] => ""
  | [s] => s
  | s :: s2 :: t => s ++ sep ++ joinWith sep (s2 :: t)

/-- emlExport.js lines 52-61, `wrapBase64`: empty input yields the empty
string, otherwise 76-character lines joined with CRLF. -/
def wrapBase64 (base64 : String) : String :=
  if base64 = "" then "" else joinWith crlf (wrapLines base64)

/-- The regex test `[^\x00-\x7f]` of `encodeHeaderWord` and
`formatAddress`. -/
def hasNonAscii (s : String) : Bool := s.data.any (fun c => decide (127 < c.toNat))

/-- emlExport.js lines 63-71, `encodeHeaderWord`: sanitized text returned
unchanged when pure ASCII, otherwise an RFC 2047 encoded word. -/
def encodeHeaderWord (value : String) : String :=
  if sanitizeHeaderValue value = "" then ""
  else if hasNonAscii (sanitizeHeaderValue value) then
    "=?UTF-8?B?" ++ base64EncodeUtf8 (sanitizeHeaderValue value) ++ "?="
  else sanitizeHeaderValue value

/-- Whether `pat` begins `l` (character-by-character). -/
def hasPre : List Char → List Char → Bool
  | [], _ => true
  | _ :: _, [] => false
  | a :: as, b :: bs => a == b && hasPre as bs

/-- `startsWith` on JS strings. -/
def jsStartsWith (s pre : String) : Bool := hasPre pre.data s.data

/-- `replace(/"/g, '\\"')` of `formatAddress`. -/
def escapeQuotes (s : String) : String :=
  ⟨(s.data.map (fun c => if c = '"' then ['\\', '"'] else [c])).flatten⟩

/-- The `encodedName` of `formatAddress` (emlExport.js line 82). -/
def faEncodedName (rawName : String) : String :=
  if hasNonAscii rawName then encodeHeaderWord rawName else rawName

/-- The quoting step of `formatAddress` (emlExport.js lines 89-90). -/
def faDisplayName (encodedName : String) : String :=
  if encodedName.data.any
      (fun c => decide (c = '"' ∨ c = ',' ∨ c = '<' ∨ c = '>' ∨ c = '@')) then
    "\"" ++ escapeQuotes encodedName ++ "\""
  else encodedName

/-- emlExport.js lines 73-93, `formatAddress` on an already-resolved
`{name, address}` pair (each read with `|| ''`). -/
def formatAddress (name address : String) : String :=
  if sanitizeHeaderValue address = "" then ""
  else if sanitizeHeaderValue name = "" ∨ sanitizeHeaderValue name = sanitizeHeaderValue address then
    "<" ++ sanitizeHeaderValue address ++ ">"
  else if jsStartsWith (faEncodedName (sanitizeHeaderValue name)) "=?UTF-8?B?" then
    faEncodedName (sanitizeHeaderValue name) ++ " <" ++ sanitizeHeaderValue address ++ ">"
  else
    faDisplayName (faEncodedName (sanitizeHeaderValue name)) ++
      " <" ++ sanitizeHeaderValue address ++ ">"

/-- A recipient record as produced by the msg/eml parsers and consumed by
`formatAddressList` (all fields loosely typed and optional). -/
structure Recipient where
  recipType : Option String := none
  smtpAddress : Option String := none
  email : Option String := none
  address : Option String := none
  name : Option String := none

/-- emlExport.js lines 95-101, `normalizeRecipient`, returned as a
(name, address) pair. -/
def normalizeRecipient (r : Recipient) : String × String :=
  let address := jsOrS r.smtpAddress (jsOrS r.email (jsOrS r.address ""))
  (jsOrS r.name address, address)

/-- emlExport.js lines 103-112, `formatAddressList`: filter by role,
format, drop empties, join with a comma and a space. -/
def formatAddressList (recipients : Option (List Recipient)) (type : String) : String :=
  match recipients with
  | none => ""
  | some rs =>
    joinWith ", "
      (((rs.filter (fun r => r.recipType == some type)).map
          (fun r => formatAddress (normalizeRecipient r).1 (normalizeRecipient r).2)).filter
        (fun s => !(s == "")))

/-- An attachment record (emlExport.js lines 164-189). -/
structure Attachment where
  attachMimeTag : Option String := none
  fileName : Option String := none
  contentBase64 : Option String := none
  contentId : Option String := none

/-- A parsed message as consumed by the export engine.  `_fileType` and
`_rawBuffer` are the raw-passthrough marker and byte buffer;
`messageDeliveryTime` and `timestamp` are the date candidates read by
`getMessageDate` (only their JS truthiness matters to the control flow
embedded here, see `EmlEnv.dateStr`). -/
structure Message where
  subject : Option String := none
  senderName : Option String := none
  senderEmail : Option String := none
  recipients : Option (List Recipient) := none
  bodyContent : Option String := none
  bodyContentHTML : Option String := none
  attachments : Option (List Attachment) := none
  messageDeliveryTime : Option String := none
  timestamp : Option String := none
  fileName : Option String := none
  _fileType : Option String := none
  _rawBuffer : Option (List Nat) := none

/-- The impure inputs of one engine run: the two boundary tokens produced
by `makeBoundary('mixed')` and `makeBoundary('alt')` (emlExport.js lines
124-127, Date.now + Math.random), and `dateStr`, the string produced by
`new Date(value).toUTCString()` for the message's date value — empty when
the date failed to parse (emlExport.js lines 118-121). -/
structure EmlEnv where
  boundaryMixed : String
  boundaryAlt : String
  dateStr : String

/-- First truthy of the two date candidates (`a || b || null`). -/
def firstTruthy (a b : Option String) : Option String :=
  match a with
  | some s => if s = "" then (match b with
      | some t => if t = "" then none else some t
      | none => none)
    else some s
  | none =>
    match b with
    | some t => if t = "" then none else some t
    | none => none

/-- emlExport.js lines 114-122, `getMessageDate`: empty when no date value
is present, otherwise the environment's rendering of it. -/
def getMessageDate (env : EmlEnv) (m : Message) : String :=
  match firstTruthy m.messageDeliveryTime m.timestamp with
  | none => ""
  | some _ => env.dateStr

/-- emlExport.js lines 129-133, `extractBase64`: strip a data-URI prefix
up to and including the first comma, if any. -/
def afterComma : List Char → Option (List Char)
  | [] => none
  | c :: r => if c = ',' then some r else afterComma r

/-- emlExport.js lines 129-133, `extractBase64`. -/
def extractBase64 (dataUrl : String) : String :=
  if dataUrl = "" then ""
  else
    match afterComma dataUrl.data with
    | none => dataUrl
    | some r => ⟨r⟩

/-- emlExport.js lines 135-145, `buildTextPart`. -/
def buildTextPart (content contentType : String) : List String :=
  ["Content-Type: " ++ contentType ++ "; charset=\"utf-8\"",
   "Content-Transfer-Encoding: base64",
   "",
   wrapBase64 (base64EncodeUtf8 (normalizeLineEndings content))]

/-- emlExport.js lines 147-162, `buildAlternativeLines`. -/
def buildAlternativeLines (boundaryAlt : String) (text html : String)
    (includeHeader : Bool) : List String :=
  (if includeHeader then
    ["Content-Type: multipart/alternative; boundary=\"" ++ boundaryAlt ++ "\"", ""]
   else []) ++
  ["--" ++ boundaryAlt] ++ buildTextPart text "text/plain" ++
  ["--" ++ boundaryAlt] ++ buildTextPart html "text/html" ++
  ["--" ++ boundaryAlt ++ "--"]

/-- `replace(/[<>]/g, '')` on a content id. -/
def stripAngles (s : String) : String :=
  ⟨s.data.filter (fun c => !(c == '<' || c == '>'))⟩

/-- The optional `Content-ID` line of an attachment part (emlExport.js
lines 176-181): present only when the raw content id is truthy and its
sanitized, angle-stripped form is non-empty. -/
def attachmentContentIdLines (attachment : Attachment) : List String :=
  match attachment.contentId with
  | some cid =>
    if cid = "" then []
    else if stripAngles (sanitizeHeaderValue cid) = "" then []
    else ["Content-ID: <" ++ stripAngles (sanitizeHeaderValue cid) ++ ">"]
  | none => []

/-- The line list of a non-empty attachment part (emlExport.js lines
171-188). -/
def attachmentPartLines (attachment : Attachment) : List String :=
  ["Content-Type: " ++ jsOrS attachment.attachMimeTag "application/octet-stream" ++
     "; name=\"" ++ sanitizeFilename (jsOrS attachment.fileName "attachment") ++ "\"",
   "Content-Transfer-Encoding: base64"] ++
  attachmentContentIdLines attachment ++
  ["Content-Disposition: " ++
     (if jsTruthyS attachment.contentId then "inline" else "attachment") ++
     "; filename=\"" ++ sanitizeFilename (jsOrS attachment.fileName "attachment") ++ "\"",
   "",
   wrapBase64 (extractBase64 (jsStr attachment.contentBase64))]

/-- emlExport.js lines 164-189, `buildAttachmentPart`: `none` models the
`return null` for an attachment with no payload bytes. -/
def buildAttachmentPart (attachment : Attachment) : Option (List String) :=
  if extractBase64 (jsStr attachment.contentBase64) = "" then none
  else some (attachmentPartLines attachment)

/-- A conditionally pushed header line (`if (value) headers.push(label + value)`). -/
def optHeader (label value : String) : List String :=
  if value = "" then [] else [label ++ value]

/-- emlExport.js lines 192-223: the header lines pushed before the body
branch (Subject, From, To, Cc, Date, MIME-Version). -/
def baseHeaders (env : EmlEnv) (m : Message) : List String :=
  optHeader "Subject: " (encodeHeaderWord (jsStr m.subject)) ++
  optHeader "From: " (formatAddress (jsStr m.senderName) (jsStr m.senderEmail)) ++
  optHeader "To: " (formatAddressList m.recipients "to") ++
  optHeader "Cc: " (formatAddressList m.recipients "cc") ++
  optHeader "Date: " (getMessageDate env m) ++
  ["MIME-Version: 1.0"]

/-- `Array.isArray(message?.attachments) ? message.attachments : []`. -/
def jsAttachments (m : Message) : List Attachment := m.attachments.getD []

/-- The normalized plain-text body (emlExport.js line 226). -/
def msgBodyText (m : Message) : String := normalizeLineEndings (jsStr m.bodyContent)

/-- The normalized HTML body (emlExport.js line 227). -/
def msgBodyHtml (m : Message) : String := normalizeLineEndings (jsStr m.bodyContentHTML)

/-- `hasText` (emlExport.js line 229). -/
def msgHasText (m : Message) : Bool := !(jsTrim (msgBodyText m) == "")

/-- `hasHtml` (emlExport.js line 230). -/
def msgHasHtml (m : Message) : Bool := !(jsTrim (msgBodyHtml m) == "")

/-- The multipart/mixed `Content-Type` header line (emlExport.js line 235). -/
def ctMixedLine (env : EmlEnv) : String :=
  "Content-Type: multipart/mixed; boundary=\"" ++ env.boundaryMixed ++ "\""

/-- The multipart/alternative `Content-Type` header line (emlExport.js
line 266). -/
def ctAltLine (env : EmlEnv) : String :=
  "Content-Type: multipart/alternative; boundary=\"" ++ env.boundaryAlt ++ "\""

/-- emlExport.js lines 237-250: the first mixed part (body region) pushed
before the attachment parts. -/
def mixedFirstPartLines (env : EmlEnv) (m : Message) : List String :=
  if msgHasText m && msgHasHtml m then
    ("--" ++ env.boundaryMixed) ::
      buildAlternativeLines env.boundaryAlt (msgBodyText m) (msgBodyHtml m) true
  else if msgHasHtml m || msgHasText m then
    ("--" ++ env.boundaryMixed) ::
      buildTextPart (if msgHasHtml m then msgBodyHtml m else msgBodyText m)
        (if msgHasHtml m then "text/html" else "text/plain")
  else
    ("--" ++ env.boundaryMixed) :: buildTextPart "" "text/plain"

/-- emlExport.js lines 252-259: the full body line list of the
multipart/mixed branch (first part, then one boundary-prefixed block per
attachment that yields a part, then the closing marker). -/
def mixedBodyLines (env : EmlEnv) (m : Message) : List String :=
  ((jsAttachments m).foldl
      (fun acc a =>
        match buildAttachmentPart a with
        | none => acc
        | some partLines => acc ++ ("--" ++ env.boundaryMixed) :: partLines)
      (mixedFirstPartLines env m)) ++
    ["--" ++ env.boundaryMixed ++ "--"]

/-- emlExport.js lines 191-283, `buildEmlFromMessage`: header block and
body joined with one blank line, four body-structure branches. -/
def buildEmlFromMessage (env : EmlEnv) (m : Message) : String :=
  if 0 < (jsAttachments m).length then
    joinWith crlf (baseHeaders env m ++ [ctMixedLine env]) ++ crlf ++ crlf ++
      joinWith crlf (mixedBodyLines env m)
  else if msgHasText m && msgHasHtml m then
    joinWith crlf (baseHeaders env m ++ [ctAltLine env]) ++ crlf ++ crlf ++
      joinWith crlf (buildAlternativeLines env.boundaryAlt (msgBodyText m) (msgBodyHtml m) false)
  else if msgHasHtml m || msgHasText m then
    joinWith crlf
        (baseHeaders env m ++
          ["Content-Type: " ++ (if msgHasHtml m then "text/html" else "text/plain") ++
             "; charset=\"utf-8\"",
           "Content-Transfer-Encoding: base64"]) ++ crlf ++ crlf ++
      wrapBase64 (base64EncodeUtf8 (if msgHasHtml m then msgBodyHtml m else msgBodyText m))
  else
    joinWith crlf
        (baseHeaders env m ++
          ["Content-Type: text/plain; charset=\"utf-8\"",
           "Content-Transfer-Encoding: base64"]) ++ crlf ++ crlf ++
      wrapBase64 (base64EncodeUtf8 "")

/-- ASCII lowercasing of one character (for the `/i` regex flags). -/
def toLowerChar (c : Char) : Char :=
  if 65 ≤ c.toNat ∧ c.toNat ≤ 90 then Char.ofNat (c.toNat + 32) else c

/-- `/\.eml$/i.test(s)` : the last four characters, lowercased, are `.eml`. -/
def emlSuffixTest (s : String) : Bool :=
  (s.data.map toLowerChar).reverse.take 4 == ['l', 'm', 'e', '.']

/-- `/\.msg$/i.test(s)`. -/
def msgSuffixTest (s : String) : Bool :=
  (s.data.map toLowerChar).reverse.take 4 == ['g', 's', 'm', '.']

/-- Drop the last four characters of a string (the matched suffix). -/
def dropLast4 (s : String) : String := ⟨s.data.take (s.data.length - 4)⟩

/-- `/\.eml$/i` stripped once from the end (emlExport.js line 299). -/
def stripEmlSuffix (s : String) : String := if emlSuffixTest s then dropLast4 s else s

/-- emlExport.js lines 298-301: the subject-derived output name. -/
def subjectEmlName (m : Message) : String :=
  (if jsTrim (stripEmlSuffix (sanitizeFilename (jsOrS m.subject "message"))) = "" then "message"
   else jsTrim (stripEmlSuffix (sanitizeFilename (jsOrS m.subject "message")))) ++ ".eml"

/-- emlExport.js lines 285-302, `deriveEmlFileName`. -/
def deriveEmlFileName (m : Message) : String :=
  if jsTrim (jsStr m.fileName) ≠ "" ∧ emlSuffixTest (jsTrim (jsStr m.fileName)) then
    sanitizeFilename (jsTrim (jsStr m.fileName))
  else if jsTrim (jsStr m.fileName) ≠ "" ∧ msgSuffixTest (jsTrim (jsStr m.fileName)) then
    sanitizeFilename (dropLast4 (jsTrim (jsStr m.fileName)) ++ ".eml")
  else subjectEmlName m

/-- The download artifact `{ fileName, dataUrl }` returned by the engine. -/
structure DownloadArtifact where
  fileName : String
  dataUrl : String

/-- The artifact of the serialization path (emlExport.js lines 322-328). -/
def emlSerializedArtifact (env : EmlEnv) (m : Message) : DownloadArtifact :=
  ⟨deriveEmlFileName m,
    "data:message/rfc822;base64," ++ base64EncodeUtf8 (buildEmlFromMessage env m)⟩

/-- emlExport.js lines 309-329, `buildEmlDownload`: null in, null out;
raw passthrough when the source was already an `.eml` file with a raw
buffer attached; otherwise serialize and base64-encode. -/
def buildEmlDownload (env : EmlEnv) (message : Option Message) : Option DownloadArtifact :=
  match message with
  | none => none
  | some m =>
    if m._fileType = some "eml" then
      match m._rawBuffer with
      | some buf =>
        some ⟨deriveEmlFileName m, "data:message/rfc822;base64," ++ base64EncodeBytes buf⟩
      | none => some (emlSerializedArtifact env m)
    else some (emlSerializedArtifact env m)

/-- Modelled from the spec: claim C8's reading of header-value sanitation,
in which every maximal run of control characters (CR and LF included)
becomes a single space before trimming.  Stated only to be compared with
the source's `sanitizeHeaderValue`. -/
def collapseCtrlAux (inRun : Bool) : List Char → List Char
  | [] => []
  | c :: r =>
    if isCtrl c then
      if inRun then collapseCtrlAux true r else ' ' :: collapseCtrlAux true r
    else c :: collapseCtrlAux false r

/-- Modelled from the spec: the claimed header sanitizer (see
`collapseCtrlAux`). -/
def specSanitizeHeaderValue (v : String) : String :=
  ⟨trimList (collapseCtrlAux false v.data)⟩

/- ## General lemmas about the embedded primitives -/

/-- Every Unicode scalar value is below 0x110000. -/
theorem char_toNat_lt (c : Char) : c.toNat < 1114112 := by
  rcases c.valid with h | h
  · exact Nat.lt_trans h (by omega)
  · exact h.2

/-- Characters surviving a JS trim come from the input. -/
theorem mem_trimList {c : Char} {l : List Char} (h : c ∈ trimList l) : c ∈ l := by
  unfold trimList at h
  have h1 := List.mem_reverse.mp h
  have h2 := (List.dropWhile_sublist isJsWs).subset h1
  have h3 := List.mem_reverse.mp h2
  exact (List.dropWhile_sublist isJsWs).subset h3

/-- Characters produced by the CR/LF-run collapse are either the emitted
space or come from the input. -/
theorem mem_collapseNlAux : ∀ (b : Bool) (l : List Char) (c : Char),
    c ∈ collapseNlAux b l → c = ' ' ∨ c ∈ l := by
  intro b l
  induction l generalizing b with
  | nil => intro c h; simp [collapseNlAux] at h
  | cons d r ih =>
    intro c h
    simp only [collapseNlAux] at h
    split at h
    · split at h
      · rcases ih _ _ h with h1 | h1
        · exact Or.inl h1
        · exact Or.inr (List.mem_cons_of_mem _ h1)
      · rcases List.mem_cons.mp h with h1 | h1
        · exact Or.inl h1
        · rcases ih _ _ h1 with h2 | h2
          · exact Or.inl h2
          · exact Or.inr (List.mem_cons_of_mem _ h2)
    · rcases List.mem_cons.mp h with h1 | h1
      · exact Or.inr (h1 ▸ List.mem_cons_self _ _)
      · rcases ih _ _ h1 with h2 | h2
        · exact Or.inl h2
        · exact Or.inr (List.mem_cons_of_mem _ h2)

/-- After the control-character pass no control character remains. -/
theorem mem_mapCtrlSpace_noCtrl {c : Char} {l : List Char}
    (h : c ∈ mapCtrlSpace l) : isCtrl c = false := by
  rcases List.mem_map.mp h with ⟨a, _, ha⟩
  by_cases hc : isCtrl a = true
  · rw [← ha, if_pos hc]; decide
  · rw [← ha, if_neg hc]; exact Bool.eq_false_iff.mpr hc

/-- `sanitizeHeaderValue` yields no control character. -/
theorem sanitizeHeaderValue_noCtrl (v : String) :
    ∀ c ∈ (sanitizeHeaderValue v).data, isCtrl c = false := by
  intro c hc
  have h1 : c ∈ collapseNlAux false (mapCtrlSpace v.data) := mem_trimList hc
  rcases mem_collapseNlAux _ _ _ h1 with h2 | h2
  · subst h2; decide
  · exact mem_mapCtrlSpace_noCtrl h2

/-- A non-control character is not CR. -/
theorem noCtrl_ne_cr {c : Char} (h : isCtrl c = false) : c ≠ '\r' :=
  fun he => absurd (he ▸ h) (by decide)

/-- A non-control character is not LF. -/
theorem noCtrl_ne_lf {c : Char} (h : isCtrl c = false) : c ≠ '\n' :=
  fun he => absurd (he ▸ h) (by decide)

/-- `b64val` inverts `b64char` on six-bit values. -/
theorem b64_inv : ∀ n, n < 64 → b64val (b64char n) = n := by decide

/-- `b64char` of a six-bit value is never the padding character. -/
theorem b64_ne_pad : ∀ n, n < 64 → b64char n ≠ '=' := by decide

/-- `b64char` of a six-bit value is an alphabet character. -/
theorem b64_mem_alpha : ∀ n, n < 64 → b64char n ∈ base64Alphabet := by decide

/-- The base64 alphabet contains no control character. -/
theorem alpha_clean : ∀ c ∈ base64Alphabet, isCtrl c = false := by decide

/-- Decoding inverts encoding on byte lists. -/
theorem base64_decode_encode : ∀ (l : List Nat), (∀ b ∈ l, b < 256) →
    base64DecodeList (base64EncodeList l) = l
  | [], _ => rfl
  | [a], h => by
    have ha : a < 256 := h a (by simp)
    have h1 : a / 4 < 64 := by omega
    have h2 : a % 4 * 16 < 64 := by omega
    simp only [base64EncodeList, base64DecodeList]
    rw [if_pos trivial, b64_inv _ h1, b64_inv _ h2]
    simp only [List.cons.injEq, and_true]
    omega
  | [a, b], h => by
    have ha : a < 256 := h a (by simp)
    have hb : b < 256 := h b (by simp)
    have h1 : a / 4 < 64 := by omega
    have h2 : a % 4 * 16 + b / 16 < 64 := by omega
    have h3 : b % 16 * 4 < 64 := by omega
    simp only [base64EncodeList, base64DecodeList]
    rw [if_neg (b64_ne_pad _ h3), if_pos trivial,
      b64_inv _ h1, b64_inv _ h2, b64_inv _ h3]
    simp only [List.cons.injEq, and_true]
    constructor <;> omega
  | a :: b :: c :: rest, h => by
    have ha : a < 256 := h a (by simp)
    have hb : b < 256 := h b (by simp)
    have hc : c < 256 := h c (by simp)
    have h1 : a / 4 < 64 := by omega
    have h2 : a % 4 * 16 + b / 16 < 64 := by omega
    have h3 : b % 16 * 4 + c / 64 < 64 := by omega
    have h4 : c % 64 < 64 := by omega
    have ih := base64_decode_encode rest (fun x hx => h x (by simp [hx]))
    simp only [base64EncodeList, base64DecodeList]
    rw [if_neg (b64_ne_pad _ h3), if_neg (b64_ne_pad _ h4),
      b64_inv _ h1, b64_inv _ h2, b64_inv _ h3, b64_inv _ h4, ih]
    simp only [List.cons.injEq, and_true, true_and]
    refine ⟨by omega, by omega, by omega⟩

/-- Every character of an encoding is an alphabet character or padding. -/
theorem base64EncodeList_mem : ∀ (l : List Nat), (∀ b ∈ l, b < 256) →
    ∀ c ∈ base64EncodeList l, c ∈ base64Alphabet ∨ c = '='
  | [], _, c, hc => by simp [base64EncodeList] at hc
  | [a], h, c, hc => by
    have ha : a < 256 := h a (by simp)
    simp only [base64EncodeList, List.mem_cons, List.not_mem_nil, or_false] at hc
    rcases hc with hc | hc | hc | hc
    · exact Or.inl (hc ▸ b64_mem_alpha _ (by omega))
    · exact Or.inl (hc ▸ b64_mem_alpha _ (by omega))
    · exact Or.inr hc
    · exact Or.inr hc
  | [a, b], h, c, hc => by
    have ha : a < 256 := h a (by simp)
    have hb : b < 256 := h b (by simp)
    simp only [base64EncodeList, List.mem_cons, List.not_mem_nil, or_false] at hc
    rcases hc with hc | hc | hc | hc
    · exact Or.inl (hc ▸ b64_mem_alpha _ (by omega))
    · exact Or.inl (hc ▸ b64_mem_alpha _ (by omega))
    · exact Or.inl (hc ▸ b64_mem_alpha _ (by omega))
    · exact Or.inr hc
  | a :: b :: d :: rest, h, c, hc => by
    have ha : a < 256 := h a (by simp)
    have hb : b < 256 := h b (by simp)
    have hd : d < 256 := h d (by simp)
    simp only [base64EncodeList, List.mem_cons] at hc
    rcases hc with hc | hc | hc | hc | hc
    · exact Or.inl (hc ▸ b64_mem_alpha _ (by omega))
    · exact Or.inl (hc ▸ b64_mem_alpha _ (by omega))
    · exact Or.inl (hc ▸ b64_mem_alpha _ (by omega))
    · exact Or.inl (hc ▸ b64_mem_alpha _ (by omega))
    · exact base64EncodeList_mem rest (fun x hx => h x (by simp [hx])) c hc

/-- UTF-8 bytes of one character are bytes. -/
theorem utf8EncodeChar_lt (c : Char) : ∀ b ∈ utf8EncodeChar c, b < 256 := by
  have hv : c.toNat < 1114112 := char_toNat_lt c
  intro b hb
  unfold utf8EncodeChar at hb
  split at hb
  · simp only [List.mem_cons, List.not_mem_nil, or_false] at hb
    omega
  · split at hb
    · simp only [List.mem_cons, List.not_mem_nil, or_false] at hb
      rcases hb with hb | hb <;> omega
    · split at hb
      · simp only [List.mem_cons, List.not_mem_nil, or_false] at hb
        rcases hb with hb | hb | hb <;> omega
      · simp only [List.mem_cons, List.not_mem_nil, or_false] at hb
        rcases hb with hb | hb | hb | hb <;> omega

/-- UTF-8 bytes of a string are bytes. -/
theorem utf8Encode_lt (s : String) : ∀ b ∈ utf8Encode s, b < 256 := by
  intro b hb
  rcases List.mem_flatten.mp hb with ⟨bs, hbs, hb2⟩
  rcases List.mem_map.mp hbs with ⟨c, _, hc⟩
  exact utf8EncodeChar_lt c b (hc ▸ hb2)

/-- Decoding the base64 of the UTF-8 encoding of a string yields exactly
those UTF-8 bytes. -/
theorem base64_utf8_roundtrip (s : String) :
    base64DecodeList (base64EncodeUtf8 s).data = utf8Encode s :=
  base64_decode_encode (utf8Encode s) (utf8Encode_lt s)

/- ## Line-break discipline -/

/-- A string fit for a single output line: it contains neither CR nor LF. -/
def CleanStr (s : String) : Prop := ∀ c ∈ s.data, c ≠ '\r' ∧ c ≠ '\n'

instance (s : String) : Decidable (CleanStr s) := by unfold CleanStr; infer_instance

/-- `crlfOnly l = true` means every CR in `l` starts a CRLF pair and every
LF ends one: all line breaks are CRLF. -/
def crlfOnly : List Char → Bool
  | [] => true
  | [c] => !(c == '\r' || c == '\n')
  | c1 :: c2 :: rest =>
    if c1 = '\r' then (c2 == '\n') && crlfOnly rest
    else !(c1 == '\n') && crlfOnly (c2 :: rest)

theorem CleanStr.append {a b : String} (ha : CleanStr a) (hb : CleanStr b) :
    CleanStr (a ++ b) := by
  intro c hc
  rw [String.data_append] at hc
  rcases List.mem_append.mp hc with h | h
  · exact ha c h
  · exact hb c h

/-- A string with no control character is clean. -/
theorem cleanStr_of_noCtrl {s : String} (h : ∀ c ∈ s.data, isCtrl c = false) :
    CleanStr s := fun c hc => ⟨noCtrl_ne_cr (h c hc), noCtrl_ne_lf (h c hc)⟩

theorem sanitizeHeaderValue_clean (v : String) : CleanStr (sanitizeHeaderValue v) :=
  cleanStr_of_noCtrl (sanitizeHeaderValue_noCtrl v)

/-- The base64 alphabet is clean. -/
theorem alpha_no_break : ∀ c ∈ base64Alphabet, c ≠ '\r' ∧ c ≠ '\n' := by decide

/-- A base64-of-UTF-8 string is clean. -/
theorem base64EncodeUtf8_clean (s : String) : CleanStr (base64EncodeUtf8 s) := by
  intro c hc
  rcases base64EncodeList_mem _ (utf8Encode_lt s) c hc with h | h
  · exact alpha_no_break c h
  · subst h; exact ⟨by decide, by decide⟩

theorem escapeQuotes_clean {s : String} (h : CleanStr s) : CleanStr (escapeQuotes s) := by
  intro c hc
  rcases List.mem_flatten.mp hc with ⟨cs, hcs, hc2⟩
  rcases List.mem_map.mp hcs with ⟨a, ha, hea⟩
  subst hea
  by_cases hq : a = '"'
  · rw [if_pos hq] at hc2
    rcases List.mem_cons.mp hc2 with h1 | h1
    · subst h1; exact ⟨by decide, by decide⟩
    · simp only [List.mem_singleton] at h1
      subst h1; exact ⟨by decide, by decide⟩
  · rw [if_neg hq] at hc2
    simp only [List.mem_singleton] at hc2
    exact hc2 ▸ h a ha

theorem encodeHeaderWord_clean (v : String) : CleanStr (encodeHeaderWord v) := by
  unfold encodeHeaderWord
  split
  · intro c hc; simp at hc
  · split
    · exact CleanStr.append (CleanStr.append (by decide) (base64EncodeUtf8_clean _)) (by decide)
    · exact sanitizeHeaderValue_clean v

theorem faEncodedName_clean (v : String) : CleanStr (faEncodedName (sanitizeHeaderValue v)) := by
  unfold faEncodedName
  split
  · exact encodeHeaderWord_clean _
  · exact sanitizeHeaderValue_clean v

theorem faDisplayName_clean {s : String} (h : CleanStr s) : CleanStr (faDisplayName s) := by
  unfold faDisplayName
  split
  · exact CleanStr.append (CleanStr.append (by decide) (escapeQuotes_clean h)) (by decide)
  · exact h

theorem formatAddress_clean (name address : String) : CleanStr (formatAddress name address) := by
  unfold formatAddress
  split
  · intro c hc; simp at hc
  · split
    · exact CleanStr.append (CleanStr.append (by decide) (sanitizeHeaderValue_clean _)) (by decide)
    · split
      · exact CleanStr.append
          (CleanStr.append (CleanStr.append (faEncodedName_clean _) (by decide))
            (sanitizeHeaderValue_clean _)) (by decide)
      · exact CleanStr.append
          (CleanStr.append
            (CleanStr.append (faDisplayName_clean (faEncodedName_clean _)) (by decide))
            (sanitizeHeaderValue_clean _)) (by decide)

theorem joinWith_clean {sep : String} (hsep : CleanStr sep) :
    ∀ ls : List String, (∀ s ∈ ls, CleanStr s) → CleanStr (joinWith sep ls)
  | [], _ => by intro c hc; simp [joinWith] at hc
  | [s], h => h s (by simp)
  | s :: s2 :: t, h =>
    CleanStr.append (CleanStr.append (h s (by simp)) hsep)
      (joinWith_clean hsep (s2 :: t) (fun x hx => h x (by simp [hx])))

theorem formatAddressList_clean (recipients : Option (List Recipient)) (type : String) :
    CleanStr (formatAddressList recipients type) := by
  unfold formatAddressList
  match recipients with
  | none => intro c hc; simp at hc
  | some rs =>
    apply joinWith_clean (by decide)
    intro s hs
    have hs2 := (List.mem_filter.mp hs).1
    rcases List.mem_map.mp hs2 with ⟨r, _, he⟩
    exact he ▸ formatAddress_clean _ _

/-- Characters of the pre-trim filename sanitization: no control
character, none of the illegal punctuation, no slash. -/
theorem sanitizeFilenameMapped_chars (s : String) :
    ∀ c ∈ sanitizeFilenameMapped s,
      isCtrl c = false ∧ bannedPunct c = false ∧ slashChar c = false := by
  intro c hc
  unfold sanitizeFilenameMapped at hc
  rcases List.mem_map.mp hc with ⟨a, ha, hea⟩
  rcases List.mem_map.mp ha with ⟨b, hb, heb⟩
  have hbf := List.mem_filter.mp hb
  have hbctrl : isCtrl b = false := by
    have := hbf.2
    simp only [Bool.not_eq_true'] at this
    exact this
  subst hea heb
  by_cases h6 : bannedPunct b = true
  · rw [if_pos h6]
    by_cases h7 : slashChar '_' = true
    · rw [if_pos h7]; refine ⟨by decide, by decide, by decide⟩
    · rw [if_neg h7]; refine ⟨by decide, by decide, by decide⟩
  · rw [if_neg h6]
    by_cases h7 : slashChar b = true
    · rw [if_pos h7]; refine ⟨by decide, by decide, by decide⟩
    · rw [if_neg h7]
      exact ⟨hbctrl, Bool.eq_false_iff.mpr h6, Bool.eq_false_iff.mpr h7⟩

/-- Characters of a sanitized filename: no control character, none of the
illegal punctuation, no slash. -/
theorem sanitizeFilename_chars (s : String) :
    ∀ c ∈ (sanitizeFilename s).data,
      isCtrl c = false ∧ bannedPunct c = false ∧ slashChar c = false := by
  unfold sanitizeFilename
  split
  · intro c hc; revert c; decide
  · intro c hc
    exact sanitizeFilenameMapped_chars s c (mem_trimList hc)

theorem sanitizeFilename_clean (s : String) : CleanStr (sanitizeFilename s) :=
  cleanStr_of_noCtrl (fun c hc => (sanitizeFilename_chars s c hc).1)

/-- A sanitized filename is never empty. -/
theorem sanitizeFilename_ne (s : String) : sanitizeFilename s ≠ "" := by
  unfold sanitizeFilename
  split
  · decide
  · assumption

theorem stripAngles_clean {s : String} (h : CleanStr s) : CleanStr (stripAngles s) := by
  intro c hc
  exact h c (List.mem_filter.mp hc).1

theorem attachmentContentIdLines_clean (a : Attachment) :
    ∀ l ∈ attachmentContentIdLines a, CleanStr l := by
  intro l hl
  unfold attachmentContentIdLines at hl
  split at hl
  · split at hl
    · simp at hl
    · split at hl
      · simp at hl
      · simp only [List.mem_singleton] at hl
        subst hl
        exact CleanStr.append
          (CleanStr.append (by decide) (stripAngles_clean (sanitizeHeaderValue_clean _))) (by decide)
  · simp at hl

/- ## CRLF-only line breaks -/

/-- A clean list is trivially CRLF-only. -/
theorem crlfOnly_of_clean : ∀ l : List Char, (∀ c ∈ l, c ≠ '\r' ∧ c ≠ '\n') →
    crlfOnly l = true
  | [], _ => rfl
  | [c], h => by
    have hc := h c (by simp)
    simp [crlfOnly, hc.1, hc.2]
  | c1 :: c2 :: rest, h => by
    have h1 := h c1 (by simp)
    have ih := crlfOnly_of_clean (c2 :: rest) (fun c hc => h c (List.mem_cons_of_mem _ hc))
    simp only [crlfOnly]
    rw [if_neg h1.1]
    simp [ih, h1.2]

/-- Gluing two CRLF-only lists with a CRLF keeps the discipline. -/
theorem crlfOnly_glue : ∀ l1 l2 : List Char, crlfOnly l1 = true → crlfOnly l2 = true →
    crlfOnly (l1 ++ '\r' :: '\n' :: l2) = true
  | [], l2, _, h2 => by
    simp only [List.nil_append, crlfOnly]
    rw [if_pos trivial, h2]
    simp
  | [c], l2, h1, h2 => by
    have hc : ¬(c = '\r') ∧ ¬(c = '\n') := by
      simpa [crlfOnly] using h1
    simp only [List.cons_append, List.nil_append, crlfOnly]
    rw [if_neg hc.1, if_pos trivial, h2]
    simp [hc.2]
  | c1 :: c2 :: rest, l2, h1, h2 => by
    simp only [crlfOnly] at h1
    by_cases hc : c1 = '\r'
    · rw [if_pos hc] at h1
      rw [Bool.and_eq_true] at h1
      have ih := crlfOnly_glue rest l2 h1.2 h2
      simp only [List.cons_append, crlfOnly]
      rw [if_pos hc]
      simp only [List.append_eq]
      rw [ih]
      simp [h1.1]
    · rw [if_neg hc] at h1
      rw [Bool.and_eq_true] at h1
      have ih := crlfOnly_glue (c2 :: rest) l2 h1.2 h2
      simp only [List.cons_append, List.append_eq] at ih ⊢
      simp only [crlfOnly]
      rw [if_neg hc]
      rw [Bool.and_eq_true]
      exact ⟨h1.1, ih⟩

/-- Joining CRLF-only lines with CRLF yields a CRLF-only string. -/
theorem crlfOnly_joinWith : ∀ lines : List String,
    (∀ s ∈ lines, crlfOnly s.data = true) → crlfOnly (joinWith crlf lines).data = true
  | [], _ => rfl
  | [s], h => h s (by simp)
  | s :: s2 :: t, h => by
    have e : (s ++ crlf ++ joinWith crlf (s2 :: t)).data
        = s.data ++ '\r' :: '\n' :: (joinWith crlf (s2 :: t)).data := by
      rw [String.data_append, String.data_append, List.append_assoc]
      rfl
    show crlfOnly (s ++ crlf ++ joinWith crlf (s2 :: t)).data = true
    rw [e]
    exact crlfOnly_glue _ _ (h s (by simp))
      (crlfOnly_joinWith (s2 :: t) (fun x hx => h x (by simp [hx])))

/-- Every chunk of the base64 line wrap is at most 76 characters. -/
theorem chunksFuel_le : ∀ (f : Nat) (l : List Char), ∀ p ∈ chunksFuel f l, p.length ≤ 76
  | _, [], p, hp => by simp [chunksFuel] at hp
  | 0, c :: r, p, hp => by simp [chunksFuel] at hp
  | f + 1, c :: r, p, hp => by
    simp only [chunksFuel, List.mem_cons] at hp
    rcases hp with hp | hp
    · subst hp
      rw [List.length_take]
      exact Nat.min_le_left _ _
    · exact chunksFuel_le f _ p hp

/-- Chunk characters come from the chunked list. -/
theorem chunksFuel_subset : ∀ (f : Nat) (l : List Char) (p : List Char), p ∈ chunksFuel f l →
    ∀ c ∈ p, c ∈ l
  | _, [], p, hp => by simp [chunksFuel] at hp
  | 0, c :: r, p, hp => by simp [chunksFuel] at hp
  | f + 1, d :: r, p, hp => by
    simp only [chunksFuel, List.mem_cons] at hp
    rcases hp with hp | hp
    · intro c hc
      exact (List.take_sublist _ _).subset (hp ▸ hc)
    · intro c hc
      exact (List.drop_sublist _ _).subset (chunksFuel_subset f _ p hp c hc)

/-- Wrapping a clean string produces only CRLF line breaks. -/
theorem crlfOnly_wrapBase64 {s : String} (h : CleanStr s) :
    crlfOnly (wrapBase64 s).data = true := by
  unfold wrapBase64
  split
  · rfl
  · apply crlfOnly_joinWith
    intro line hline
    unfold wrapLines at hline
    rcases List.mem_map.mp hline with ⟨p, hp, he⟩
    subst he
    apply crlfOnly_of_clean
    intro c hc
    exact h c (chunksFuel_subset _ _ _ hp c hc)

/- ## Header-kind discrimination -/

/-- Whether a header line is a `Content-Type` header. -/
def ctLabeled (h : String) : Bool := hasPre "Content-Type:".data h.data

/-- Whether a header line is a `Content-ID` header. -/
def ctIdLabeled (h : String) : Bool := hasPre "Content-ID:".data h.data

theorem mem_optHeader {h label value : String} (hm : h ∈ optHeader label value) :
    h = label ++ value := by
  unfold optHeader at hm
  split at hm
  · simp at hm
  · simpa using hm

theorem notCT_subject (s : String) : ctLabeled ("Subject: " ++ s) = false := by
  unfold ctLabeled
  rw [String.data_append]
  rfl

theorem notCT_from (s : String) : ctLabeled ("From: " ++ s) = false := by
  unfold ctLabeled
  rw [String.data_append]
  rfl

theorem notCT_to (s : String) : ctLabeled ("To: " ++ s) = false := by
  unfold ctLabeled
  rw [String.data_append]
  rfl

theorem notCT_cc (s : String) : ctLabeled ("Cc: " ++ s) = false := by
  unfold ctLabeled
  rw [String.data_append]
  rfl

theorem notCT_date (s : String) : ctLabeled ("Date: " ++ s) = false := by
  unfold ctLabeled
  rw [String.data_append]
  rfl

/-- None of the pre-body headers is a `Content-Type` header. -/
theorem baseHeaders_notCT (env : EmlEnv) (m : Message) :
    ∀ h ∈ baseHeaders env m, ctLabeled h = false := by
  intro h hm
  unfold baseHeaders at hm
  simp only [List.mem_append] at hm
  rcases hm with ((((h1 | h1) | h1) | h1) | h1) | h1
  · exact (mem_optHeader h1) ▸ notCT_subject _
  · exact (mem_optHeader h1) ▸ notCT_from _
  · exact (mem_optHeader h1) ▸ notCT_to _
  · exact (mem_optHeader h1) ▸ notCT_cc _
  · exact (mem_optHeader h1) ▸ notCT_date _
  · simp only [List.mem_singleton] at h1
    subst h1
    rfl

/-- A header line of the form `label ++ value` with a non-empty label is
not the empty line. -/
theorem label_append_ne {label : String} (value : String) (h : label.data ≠ []) :
    (label ++ value).data ≠ [] := by
  rw [String.data_append]
  intro he
  exact h (List.append_eq_nil.mp he).1

theorem getMessageDate_clean (env : EmlEnv) (m : Message) (hd : CleanStr env.dateStr) :
    CleanStr (getMessageDate env m) := by
  unfold getMessageDate
  split
  · intro c hc; simp at hc
  · exact hd

/-- Every pre-body header line is non-empty and clean. -/
theorem baseHeaders_ok (env : EmlEnv) (m : Message) (hd : CleanStr env.dateStr) :
    ∀ h ∈ baseHeaders env m, h.data ≠ [] ∧ CleanStr h := by
  intro h hm
  unfold baseHeaders at hm
  simp only [List.mem_append] at hm
  rcases hm with ((((h1 | h1) | h1) | h1) | h1) | h1
  · exact (mem_optHeader h1) ▸
      ⟨label_append_ne _ (by decide), CleanStr.append (by decide) (encodeHeaderWord_clean _)⟩
  · exact (mem_optHeader h1) ▸
      ⟨label_append_ne _ (by decide), CleanStr.append (by decide) (formatAddress_clean _ _)⟩
  · exact (mem_optHeader h1) ▸
      ⟨label_append_ne _ (by decide), CleanStr.append (by decide) (formatAddressList_clean _ _)⟩
  · exact (mem_optHeader h1) ▸
      ⟨label_append_ne _ (by decide), CleanStr.append (by decide) (formatAddressList_clean _ _)⟩
  · exact (mem_optHeader h1) ▸
      ⟨label_append_ne _ (by decide), CleanStr.append (by decide) (getMessageDate_clean env m hd)⟩
  · simp only [List.mem_singleton] at h1
    subst h1
    exact ⟨by decide, by decide⟩

/- ## The claims -/

/-- C6: the filename sanitizer never returns an empty string, its result
contains no control character, none of the characters illegal on common
filesystems, no slash or backslash, hence no traversal sequence and no
drive-letter prefix; and when the sanitization pipeline strips everything
the fallback name `message.eml` is returned. -/
theorem C6_sanitizeFilename_safe (s : String) :
    sanitizeFilename s ≠ "" ∧
    (∀ c ∈ (sanitizeFilename s).data,
      isCtrl c = false ∧ bannedPunct c = false ∧ slashChar c = false) ∧
    (∀ pre post : List Char, (sanitizeFilename s).data ≠ pre ++ '.' :: '.' :: '/' :: post) ∧
    (∀ pre post : List Char, (sanitizeFilename s).data ≠ pre ++ '.' :: '.' :: '\\' :: post) ∧
    (∀ (a : Char) (rest : List Char), (sanitizeFilename s).data ≠ a :: ':' :: rest) ∧
    (sanitizeFilenameCore s = "" → sanitizeFilename s = "message.eml") := by
  refine ⟨sanitizeFilename_ne s, sanitizeFilename_chars s, ?_, ?_, ?_, ?_⟩
  · intro pre post he
    have hm : '/' ∈ (sanitizeFilename s).data := by rw [he]; simp
    exact absurd (sanitizeFilename_chars s _ hm).2.2 (by decide)
  · intro pre post he
    have hm : '\\' ∈ (sanitizeFilename s).data := by rw [he]; simp
    exact absurd (sanitizeFilename_chars s _ hm).2.2 (by decide)
  · intro a rest he
    have hm : ':' ∈ (sanitizeFilename s).data := by rw [he]; simp
    exact absurd (sanitizeFilename_chars s _ hm).2.1 (by decide)
  · intro h
    unfold sanitizeFilename
    rw [if_pos h]

theorem C6_witness :
    sanitizeFilename "" = "message.eml" ∧ sanitizeFilename "C:\\x<y" ≠ "" :=
  ⟨(C6_sanitizeFilename_safe "").2.2.2.2.2 rfl, (C6_sanitizeFilename_safe "C:\\x<y").1⟩

/-- The CR/LF-run collapse is the identity on lists without CR or LF. -/
theorem collapseNl_id : ∀ (b : Bool) (l : List Char),
    (∀ c ∈ l, isNlChar c = false) → collapseNlAux b l = l := by
  intro b l
  induction l generalizing b with
  | nil => intro _; rfl
  | cons c r ih =>
    intro h
    have hc := h c (by simp)
    simp only [collapseNlAux]
    rw [if_neg (by simp [hc]), ih _ (fun x hx => h x (by simp [hx]))]

/-- The control pass leaves no CR or LF behind. -/
theorem mapCtrlSpace_noNl {l : List Char} : ∀ c ∈ mapCtrlSpace l, isNlChar c = false := by
  intro c hc
  have h := mem_mapCtrlSpace_noCtrl hc
  by_cases hn : isNlChar c = true
  · rcases of_decide_eq_true hn with h1 | h1 <;> rw [h1] at h <;> exact absurd h (by decide)
  · exact Bool.eq_false_iff.mpr hn

/-- C8 (amended): header-value sanitation maps each control character
(CR and LF included) individually to one space — the later CR/LF-run pass
finds nothing left to collapse — and then trims; the result contains no
control character, so it is safe on a single header line. -/
theorem C8_sanitizeHeaderValue_amended (v : String) :
    sanitizeHeaderValue v = ⟨trimList (mapCtrlSpace v.data)⟩ ∧
    (∀ c ∈ (sanitizeHeaderValue v).data, isCtrl c = false) := by
  constructor
  · unfold sanitizeHeaderValue
    rw [collapseNl_id false (mapCtrlSpace v.data) mapCtrlSpace_noNl]
  · exact sanitizeHeaderValue_noCtrl v

/-- C8 counterexample: on `"a\r\nb"` the source maps the embedded CRLF to
two spaces (one per character), while the claimed run-collapsing sanitizer
would produce a single space. -/
theorem C8_counterexample :
    sanitizeHeaderValue "a\r\nb" = "a  b" ∧
    specSanitizeHeaderValue "a\r\nb" = "a b" ∧
    ("a  b" : String) ≠ "a b" :=
  ⟨by decide, by decide, by decide⟩

theorem C8_witness :
    sanitizeHeaderValue "x\ty" = (⟨trimList (mapCtrlSpace ("x\ty" : String).data)⟩ : String) :=
  (C8_sanitizeHeaderValue_amended "x\ty").1

/-- C7: header encoding returns the sanitized text unchanged when it is
pure ASCII; when any character is non-ASCII it returns the RFC 2047
encoded word whose base64 content decodes to exactly the UTF-8 bytes of
the sanitized text. -/
theorem C7_encodeHeaderWord (v : String) :
    ((∀ c ∈ (sanitizeHeaderValue v).data, c.toNat ≤ 127) →
      encodeHeaderWord v = sanitizeHeaderValue v) ∧
    ((∃ c ∈ (sanitizeHeaderValue v).data, 127 < c.toNat) →
      encodeHeaderWord v =
        "=?UTF-8?B?" ++ base64EncodeUtf8 (sanitizeHeaderValue v) ++ "?=" ∧
      base64DecodeList (base64EncodeUtf8 (sanitizeHeaderValue v)).data
        = utf8Encode (sanitizeHeaderValue v)) := by
  constructor
  · intro h
    unfold encodeHeaderWord
    split
    · rename_i he
      exact he.symm
    · have hna : ¬(hasNonAscii (sanitizeHeaderValue v) = true) := by
        intro hx
        rcases List.any_eq_true.mp hx with ⟨c, hc, hcp⟩
        have h1 := h c hc
        have h2 := of_decide_eq_true hcp
        omega
      rw [if_neg hna]
  · intro h
    have hne : sanitizeHeaderValue v ≠ "" := by
      rcases h with ⟨c, hc, _⟩
      intro he
      rw [he] at hc
      simp at hc
    have hna : hasNonAscii (sanitizeHeaderValue v) = true := by
      rcases h with ⟨c, hc, hcp⟩
      exact List.any_eq_true.mpr ⟨c, hc, decide_eq_true hcp⟩
    constructor
    · unfold encodeHeaderWord
      rw [if_neg hne, if_pos hna]
    · exact base64_utf8_roundtrip _

theorem C7_witness :
    encodeHeaderWord "abc" = sanitizeHeaderValue "abc" ∧
    encodeHeaderWord "é" = "=?UTF-8?B?" ++ base64EncodeUtf8 (sanitizeHeaderValue "é") ++ "?=" :=
  ⟨(C7_encodeHeaderWord "abc").1 (by decide), ((C7_encodeHeaderWord "é").2 (by decide)).1⟩

/-- A derived output filename is never empty. -/
theorem deriveEmlFileName_ne (m : Message) : deriveEmlFileName m ≠ "" := by
  unfold deriveEmlFileName
  split
  · exact sanitizeFilename_ne _
  · split
    · exact sanitizeFilename_ne _
    · unfold subjectEmlName
      intro he
      have hlen := congrArg String.length he
      rw [String.length_append] at hlen
      have h4 : (".eml" : String).length = 4 := by decide
      rw [h4] at hlen
      simp at hlen

/-- C5: the engine returns an absent artifact exactly for an absent
message; for every present message — including one with every optional
field missing — it returns an artifact with a non-empty file name and a
base64 data-URL payload, and no error can arise since the embedding is a
total function. -/
theorem C5_buildEmlDownload_total (env : EmlEnv) :
    buildEmlDownload env none = none ∧
    ∀ m : Message, ∃ a : DownloadArtifact,
      buildEmlDownload env (some m) = some a ∧ a.fileName ≠ "" ∧
      ∃ payload, a.dataUrl = "data:message/rfc822;base64," ++ payload := by
  constructor
  · rfl
  · intro m
    have hfn : deriveEmlFileName m ≠ "" := deriveEmlFileName_ne m
    simp only [buildEmlDownload]
    rcases hbuf : m._rawBuffer with _ | buf
    · by_cases hft : m._fileType = some "eml"
      · refine ⟨emlSerializedArtifact env m, ?_, hfn,
          base64EncodeUtf8 (buildEmlFromMessage env m), rfl⟩
        rw [if_pos hft]
      · exact ⟨emlSerializedArtifact env m, by rw [if_neg hft], hfn,
          base64EncodeUtf8 (buildEmlFromMessage env m), rfl⟩
    · by_cases hft : m._fileType = some "eml"
      · refine ⟨⟨deriveEmlFileName m, "data:message/rfc822;base64," ++ base64EncodeBytes buf⟩,
          ?_, hfn, base64EncodeBytes buf, rfl⟩
        rw [if_pos hft]
      · exact ⟨emlSerializedArtifact env m, by rw [if_neg hft], hfn,
          base64EncodeUtf8 (buildEmlFromMessage env m), rfl⟩

theorem C5_witness :
    buildEmlDownload ⟨"m", "a", ""⟩ none = none ∧
    ∃ a : DownloadArtifact,
      buildEmlDownload ⟨"m", "a", ""⟩ (some {}) = some a ∧ a.fileName ≠ "" ∧
      ∃ payload, a.dataUrl = "data:message/rfc822;base64," ++ payload :=
  ⟨(C5_buildEmlDownload_total ⟨"m", "a", ""⟩).1,
   (C5_buildEmlDownload_total ⟨"m", "a", ""⟩).2 {}⟩

/-- C4: when the recorded original format is `eml` and a raw buffer is
carried, the engine skips serialization: the payload is the base64 of
exactly the raw bytes — whatever all other fields hold — packaged under
the `message/rfc822` media type, and decoding it restores the bytes. -/
theorem C4_raw_passthrough (env : EmlEnv) (m : Message) (buf : List Nat)
    (h1 : m._fileType = some "eml") (h2 : m._rawBuffer = some buf)
    (h3 : ∀ b ∈ buf, b < 256) :
    buildEmlDownload env (some m) =
      some ⟨deriveEmlFileName m, "data:message/rfc822;base64," ++ base64EncodeBytes buf⟩ ∧
    base64DecodeList (base64EncodeBytes buf).data = buf := by
  constructor
  · simp only [buildEmlDownload]
    rw [if_pos h1, h2]
  · exact base64_decode_encode buf h3

/-- A message whose every other field differs from the raw buffer content. -/
def c4msg : Message :=
  { subject := some "ignored"
    bodyContent := some "other"
    _fileType := some "eml"
    _rawBuffer := some [0, 255, 10] }

theorem C4_witness :
    buildEmlDownload ⟨"m", "a", ""⟩ (some c4msg) =
      some ⟨deriveEmlFileName c4msg,
        "data:message/rfc822;base64," ++ base64EncodeBytes [0, 255, 10]⟩ ∧
    base64DecodeList (base64EncodeBytes [0, 255, 10]).data = [0, 255, 10] :=
  C4_raw_passthrough ⟨"m", "a", ""⟩ c4msg [0, 255, 10] rfl rfl (by decide)

/-- C10: an attachment whose raw content id is present but sanitizes to
the empty string yields a part with `Content-Disposition: inline` and no
`Content-ID` header at all — the inline choice keys on the raw content id
being present, not on a `Content-ID` header being emitted. -/
theorem C10_inline_without_contentId (a : Attachment) (cid : String)
    (h1 : a.contentId = some cid) (h2 : cid ≠ "")
    (h3 : stripAngles (sanitizeHeaderValue cid) = "")
    (h4 : extractBase64 (jsStr a.contentBase64) ≠ "") :
    ∃ hdrs : List String,
      buildAttachmentPart a =
        some (hdrs ++ ["", wrapBase64 (extractBase64 (jsStr a.contentBase64))]) ∧
      hdrs =
        ["Content-Type: " ++ jsOrS a.attachMimeTag "application/octet-stream" ++
           "; name=\"" ++ sanitizeFilename (jsOrS a.fileName "attachment") ++ "\"",
         "Content-Transfer-Encoding: base64",
         "Content-Disposition: inline; filename=\"" ++
           sanitizeFilename (jsOrS a.fileName "attachment") ++ "\""] ∧
      ∀ l ∈ hdrs, ctIdLabeled l = false := by
  have hid : attachmentContentIdLines a = [] := by
    unfold attachmentContentIdLines
    rw [h1]
    simp [h2, h3]
  have htr : jsTruthyS a.contentId = true := by
    rw [h1]
    unfold jsTruthyS
    simp [h2]
  refine ⟨_, ?_, rfl, ?_⟩
  · unfold buildAttachmentPart
    rw [if_neg h4]
    unfold attachmentPartLines
    rw [hid, htr]
    simp
  · intro l hl
    simp only [List.mem_cons, List.not_mem_nil, or_false] at hl
    rcases hl with hl | hl | hl
    · subst hl
      unfold ctIdLabeled
      rw [String.data_append, String.data_append, String.data_append,
        String.data_append, List.append_assoc, List.append_assoc, List.append_assoc]
      rfl
    · subst hl
      rfl
    · subst hl
      unfold ctIdLabeled
      rw [String.data_append, String.data_append, List.append_assoc]
      rfl

def c10att : Attachment := { contentBase64 := some "QQ==", contentId := some "<>" }

theorem C10_witness :
    ∃ hdrs : List String,
      buildAttachmentPart c10att =
        some (hdrs ++ ["", wrapBase64 (extractBase64 (jsStr c10att.contentBase64))]) ∧
      hdrs =
        ["Content-Type: " ++ jsOrS c10att.attachMimeTag "application/octet-stream" ++
           "; name=\"" ++ sanitizeFilename (jsOrS c10att.fileName "attachment") ++ "\"",
         "Content-Transfer-Encoding: base64",
         "Content-Disposition: inline; filename=\"" ++
           sanitizeFilename (jsOrS c10att.fileName "attachment") ++ "\""] ∧
      ∀ l ∈ hdrs, ctIdLabeled l = false :=
  C10_inline_without_contentId c10att "<>" rfl (by decide) (by decide) (by decide)

/-- The message of the spec's example scenario (the spec's `role` field is
the source's `recipType`). -/
def c1msg : Message :=
  { subject := some "Hello"
    senderEmail := some "a@x.com"
    recipients := some [{ recipType := some "to", address := some "b@y.com" }]
    bodyContent := some "Hi"
    attachments := some [] }

/-- The serialized text the engine produces for `c1msg`. -/
def c1eml : String :=
  "Subject: Hello\r\nFrom: <a@x.com>\r\nTo: <b@y.com>\r\nMIME-Version: 1.0\r\nContent-Type: text/plain; charset=\"utf-8\"\r\nContent-Transfer-Encoding: base64\r\n\r\nSGk="

/-- C1: on the example message the engine yields the artifact whose
payload is the base64 of `c1eml`; decoding that payload restores `c1eml`,
which carries the `Subject`, `From`, `To` and `Content-Type` headers the
spec lists, and whose body after the blank line base64-decodes to the
UTF-8 bytes of `"Hi"`. -/
theorem C1_example_message (env : EmlEnv) :
    buildEmlDownload env (some c1msg) =
      some ⟨"Hello.eml", "data:message/rfc822;base64," ++ base64EncodeUtf8 c1eml⟩ ∧
    base64DecodeList (base64EncodeUtf8 c1eml).data = utf8Encode c1eml ∧
    (∃ rest, c1eml = "Subject: Hello" ++ crlf ++ rest) ∧
    (∃ pre rest, c1eml = pre ++ ("From: <a@x.com>" ++ crlf) ++ rest) ∧
    (∃ pre rest, c1eml = pre ++ ("To: <b@y.com>" ++ crlf) ++ rest) ∧
    (∃ pre rest, c1eml = pre ++ ("Content-Type: text/plain; charset=\"utf-8\"" ++ crlf) ++ rest) ∧
    (∃ hdr body, c1eml = hdr ++ crlf ++ crlf ++ body ∧
      base64DecodeList body.data = utf8Encode "Hi" ∧ utf8Encode "Hi" = [72, 105]) := by
  refine ⟨?_, base64_utf8_roundtrip c1eml,
    ⟨"From: <a@x.com>\r\nTo: <b@y.com>\r\nMIME-Version: 1.0\r\nContent-Type: text/plain; charset=\"utf-8\"\r\nContent-Transfer-Encoding: base64\r\n\r\nSGk=", rfl⟩,
    ⟨"Subject: Hello\r\n",
     "To: <b@y.com>\r\nMIME-Version: 1.0\r\nContent-Type: text/plain; charset=\"utf-8\"\r\nContent-Transfer-Encoding: base64\r\n\r\nSGk=", rfl⟩,
    ⟨"Subject: Hello\r\nFrom: <a@x.com>\r\n",
     "MIME-Version: 1.0\r\nContent-Type: text/plain; charset=\"utf-8\"\r\nContent-Transfer-Encoding: base64\r\n\r\nSGk=", rfl⟩,
    ⟨"Subject: Hello\r\nFrom: <a@x.com>\r\nTo: <b@y.com>\r\nMIME-Version: 1.0\r\n",
     "Content-Transfer-Encoding: base64\r\n\r\nSGk=", rfl⟩,
    ⟨"Subject: Hello\r\nFrom: <a@x.com>\r\nTo: <b@y.com>\r\nMIME-Version: 1.0\r\nContent-Type: text/plain; charset=\"utf-8\"\r\nContent-Transfer-Encoding: base64",
     "SGk=", rfl, by decide, by decide⟩⟩
  rfl

theorem C1_witness :
    buildEmlDownload ⟨"m", "a", ""⟩ (some c1msg) =
      some ⟨"Hello.eml", "data:message/rfc822;base64," ++ base64EncodeUtf8 c1eml⟩ :=
  (C1_example_message ⟨"m", "a", ""⟩).1

/-- The attachment `forEach` push-loop equals the flattened per-attachment
block list appended to the initial lines. -/
theorem mixedFold_eq (sep : String) : ∀ (atts : List Attachment) (init : List String),
    atts.foldl
      (fun acc a =>
        match buildAttachmentPart a with
        | none => acc
        | some partLines => acc ++ sep :: partLines)
      init
    = init ++ (atts.map (fun a =>
        match buildAttachmentPart a with
        | none => []
        | some partLines => sep :: partLines)).flatten := by
  intro atts
  induction atts with
  | nil => intro init; simp
  | cons a t ih =>
    intro init
    simp only [List.foldl_cons, List.map_cons, List.flatten_cons]
    rw [ih]
    cases buildAttachmentPart a <;> simp

/-- An attachment with no extracted payload yields no part. -/
theorem buildAttachmentPart_empty (a : Attachment)
    (h : extractBase64 (jsStr a.contentBase64) = "") : buildAttachmentPart a = none := by
  unfold buildAttachmentPart
  rw [if_pos h]

/-- An attachment with an extracted payload yields the part lines. -/
theorem buildAttachmentPart_some (a : Attachment)
    (h : extractBase64 (jsStr a.contentBase64) ≠ "") :
    buildAttachmentPart a = some (attachmentPartLines a) := by
  unfold buildAttachmentPart
  rw [if_neg h]

/-- The number of parts produced equals the number of attachments with a
non-empty extracted payload. -/
theorem attachment_count : ∀ atts : List Attachment,
    (atts.filterMap buildAttachmentPart).length
      = atts.countP (fun a => !(extractBase64 (jsStr a.contentBase64) == "")) := by
  intro atts
  induction atts with
  | nil => rfl
  | cons a t ih =>
    rw [List.filterMap_cons, List.countP_cons]
    by_cases h : extractBase64 (jsStr a.contentBase64) = ""
    · rw [buildAttachmentPart_empty a h]
      simp [ih, h]
    · rw [buildAttachmentPart_some a h]
      simp [ih, h]

/-- C2: with a non-empty attachment list the serialized output is the
header block ending in the `multipart/mixed` `Content-Type` header — the
only `Content-Type` header in the block — followed by one blank line and
the mixed body, whose lines are the first (body) part, then one
boundary-led block per attachment that yields a part, then the closing
marker; the number of parts equals the number of attachments whose
extracted payload is non-empty, and an empty-payload attachment yields no
part (and, the embedding being total, no error). -/
theorem C2_mixed_attachments (env : EmlEnv) (m : Message) (atts : List Attachment)
    (hA : m.attachments = some atts) (hne : atts ≠ []) :
    buildEmlFromMessage env m =
      joinWith crlf (baseHeaders env m ++ [ctMixedLine env]) ++ crlf ++ crlf ++
        joinWith crlf (mixedBodyLines env m) ∧
    ctLabeled (ctMixedLine env) = true ∧
    (∀ h ∈ baseHeaders env m ++ [ctMixedLine env], ctLabeled h = true → h = ctMixedLine env) ∧
    mixedBodyLines env m =
      mixedFirstPartLines env m ++
        (atts.map (fun a =>
          match buildAttachmentPart a with
          | none => []
          | some partLines => ("--" ++ env.boundaryMixed) :: partLines)).flatten ++
        ["--" ++ env.boundaryMixed ++ "--"] ∧
    (atts.filterMap buildAttachmentPart).length
      = atts.countP (fun a => !(extractBase64 (jsStr a.contentBase64) == "")) ∧
    (∀ a ∈ atts, extractBase64 (jsStr a.contentBase64) = "" → buildAttachmentPart a = none) := by
  have hj : jsAttachments m = atts := by
    unfold jsAttachments
    rw [hA]
    rfl
  have hcond : 0 < (jsAttachments m).length := by
    rw [hj]
    exact List.length_pos.mpr hne
  refine ⟨?_, ?_, ?_, ?_, attachment_count atts, fun a _ h => buildAttachmentPart_empty a h⟩
  · unfold buildEmlFromMessage
    rw [if_pos hcond]
  · unfold ctLabeled ctMixedLine
    rw [String.data_append, String.data_append]
    rfl
  · intro h hm hct
    rcases List.mem_append.mp hm with h1 | h1
    · exact absurd hct (by rw [baseHeaders_notCT env m h h1]; decide)
    · simpa using h1
  · unfold mixedBodyLines
    rw [hj, mixedFold_eq]

def c2env : EmlEnv := ⟨"mixed-1-a", "alt-1-b", ""⟩

def c2msg : Message :=
  { attachments := some [{ contentBase64 := some "QQ==" }, { contentBase64 := some "" }] }

theorem C2_witness :
    (([{ contentBase64 := some "QQ==" }, { contentBase64 := some "" }] :
        List Attachment).filterMap buildAttachmentPart).length
      = ([{ contentBase64 := some "QQ==" }, { contentBase64 := some "" }] :
        List Attachment).countP
          (fun a => !(extractBase64 (jsStr a.contentBase64) == "")) :=
  (C2_mixed_attachments c2env c2msg
    [{ contentBase64 := some "QQ==" }, { contentBase64 := some "" }] rfl
    (by simp)).2.2.2.2.1

/-- Every line of the base64 wrap is at most 76 characters long. -/
theorem wrapLines_le (s : String) : ∀ p ∈ wrapLines s, p.length ≤ 76 := by
  intro p hp
  unfold wrapLines at hp
  rcases List.mem_map.mp hp with ⟨l, hl, he⟩
  subst he
  exact chunksFuel_le _ _ l hl

/-- C3: with non-blank plain and HTML bodies and no attachments, the
output is the header block ending in the `multipart/alternative`
`Content-Type` header — the only `Content-Type` header — a blank line,
and a body of exactly two base64 parts, `text/plain` then `text/html`,
whose wrapped payload lines never exceed 76 characters. -/
theorem C3_alternative_two_parts (env : EmlEnv) (m : Message)
    (hT : jsTrim (msgBodyText m) ≠ "") (hH : jsTrim (msgBodyHtml m) ≠ "")
    (hA : jsAttachments m = []) :
    buildEmlFromMessage env m =
      joinWith crlf (baseHeaders env m ++ [ctAltLine env]) ++ crlf ++ crlf ++
        joinWith crlf
          ["--" ++ env.boundaryAlt,
           "Content-Type: text/plain; charset=\"utf-8\"",
           "Content-Transfer-Encoding: base64",
           "",
           wrapBase64 (base64EncodeUtf8 (normalizeLineEndings (msgBodyText m))),
           "--" ++ env.boundaryAlt,
           "Content-Type: text/html; charset=\"utf-8\"",
           "Content-Transfer-Encoding: base64",
           "",
           wrapBase64 (base64EncodeUtf8 (normalizeLineEndings (msgBodyHtml m))),
           "--" ++ env.boundaryAlt ++ "--"] ∧
    ctLabeled (ctAltLine env) = true ∧
    (∀ h ∈ baseHeaders env m ++ [ctAltLine env], ctLabeled h = true → h = ctAltLine env) ∧
    (∀ p ∈ wrapLines (base64EncodeUtf8 (normalizeLineEndings (msgBodyText m))),
      p.length ≤ 76) ∧
    (∀ p ∈ wrapLines (base64EncodeUtf8 (normalizeLineEndings (msgBodyHtml m))),
      p.length ≤ 76) := by
  have hc1 : ¬(0 < (jsAttachments m).length) := by
    rw [hA]
    simp
  have hc2 : (msgHasText m && msgHasHtml m) = true := by
    unfold msgHasText msgHasHtml
    simp [hT, hH]
  refine ⟨?_, ?_, ?_, wrapLines_le _, wrapLines_le _⟩
  · unfold buildEmlFromMessage
    rw [if_neg hc1, if_pos hc2]
    rfl
  · unfold ctLabeled ctAltLine
    rw [String.data_append, String.data_append]
    rfl
  · intro h hm hct
    rcases List.mem_append.mp hm with h1 | h1
    · exact absurd hct (by rw [baseHeaders_notCT env m h h1]; decide)
    · simpa using h1

def c3msg : Message := { bodyContent := some "T", bodyContentHTML := some "<p>T</p>" }

theorem C3_witness :
    buildEmlFromMessage c2env c3msg =
      joinWith crlf (baseHeaders c2env c3msg ++ [ctAltLine c2env]) ++ crlf ++ crlf ++
        joinWith crlf
          ["--" ++ c2env.boundaryAlt,
           "Content-Type: text/plain; charset=\"utf-8\"",
           "Content-Transfer-Encoding: base64",
           "",
           wrapBase64 (base64EncodeUtf8 (normalizeLineEndings (msgBodyText c3msg))),
           "--" ++ c2env.boundaryAlt,
           "Content-Type: text/html; charset=\"utf-8\"",
           "Content-Transfer-Encoding: base64",
           "",
           wrapBase64 (base64EncodeUtf8 (normalizeLineEndings (msgBodyHtml c3msg))),
           "--" ++ c2env.boundaryAlt ++ "--"] :=
  (C3_alternative_two_parts c2env c3msg (by decide) (by decide) rfl).1

theorem crlfOnly_of_cleanStr {s : String} (h : CleanStr s) : crlfOnly s.data = true :=
  crlfOnly_of_clean s.data h

/-- Every line of a text part has only CRLF breaks. -/
theorem buildTextPart_crlf (content ct : String) (hct : CleanStr ct) :
    ∀ l ∈ buildTextPart content ct, crlfOnly l.data = true := by
  intro l hl
  unfold buildTextPart at hl
  simp only [List.mem_cons, List.not_mem_nil, or_false] at hl
  rcases hl with hl | hl | hl | hl
  · subst hl
    exact crlfOnly_of_cleanStr (CleanStr.append (CleanStr.append (by decide) hct) (by decide))
  · subst hl
    decide
  · subst hl
    rfl
  · subst hl
    exact crlfOnly_wrapBase64 (base64EncodeUtf8_clean _)

/-- Every line of an alternative block has only CRLF breaks. -/
theorem buildAlternativeLines_crlf (ba text html : String) (inc : Bool) (hba : CleanStr ba) :
    ∀ l ∈ buildAlternativeLines ba text html inc, crlfOnly l.data = true := by
  intro l hl
  unfold buildAlternativeLines at hl
  simp only [List.mem_append] at hl
  rcases hl with ((((hl | hl) | hl) | hl) | hl) | hl
  · split at hl
    · simp only [List.mem_cons, List.not_mem_nil, or_false] at hl
      rcases hl with hl | hl
      · subst hl
        exact crlfOnly_of_cleanStr
          (CleanStr.append (CleanStr.append (by decide) hba) (by decide))
      · subst hl
        rfl
    · simp at hl
  · simp only [List.mem_singleton] at hl
    subst hl
    exact crlfOnly_of_cleanStr (CleanStr.append (by decide) hba)
  · exact buildTextPart_crlf _ _ (by decide) l hl
  · simp only [List.mem_singleton] at hl
    subst hl
    exact crlfOnly_of_cleanStr (CleanStr.append (by decide) hba)
  · exact buildTextPart_crlf _ _ (by decide) l hl
  · simp only [List.mem_singleton] at hl
    subst hl
    exact crlfOnly_of_cleanStr (CleanStr.append (CleanStr.append (by decide) hba) (by decide))

/-- Every line of an attachment part has only CRLF breaks, provided the
raw mime tag and the extracted payload are clean. -/
theorem attachmentPartLines_crlf (a : Attachment)
    (hmime : CleanStr (jsOrS a.attachMimeTag "application/octet-stream"))
    (hpay : CleanStr (extractBase64 (jsStr a.contentBase64))) :
    ∀ l ∈ attachmentPartLines a, crlfOnly l.data = true := by
  intro l hl
  unfold attachmentPartLines at hl
  simp only [List.mem_append, List.mem_cons, List.not_mem_nil, or_false] at hl
  rcases hl with ((hl | hl) | hl) | hl | hl | hl
  · subst hl
    exact crlfOnly_of_cleanStr
      (CleanStr.append
        (CleanStr.append
          (CleanStr.append (CleanStr.append (by decide) hmime) (by decide))
          (sanitizeFilename_clean _))
        (by decide))
  · subst hl
    decide
  · exact crlfOnly_of_cleanStr (attachmentContentIdLines_clean a l hl)
  · subst hl
    have hdisp : CleanStr (if jsTruthyS a.contentId then "inline" else "attachment") := by
      split <;> decide
    exact crlfOnly_of_cleanStr
      (CleanStr.append
        (CleanStr.append
          (CleanStr.append (CleanStr.append (by decide) hdisp) (by decide))
          (sanitizeFilename_clean _))
        (by decide))
  · subst hl
    rfl
  · subst hl
    exact crlfOnly_wrapBase64 hpay

/-- Every line of the first mixed part has only CRLF breaks. -/
theorem mixedFirstPartLines_crlf (env : EmlEnv) (m : Message)
    (hbm : CleanStr env.boundaryMixed) (hba : CleanStr env.boundaryAlt) :
    ∀ l ∈ mixedFirstPartLines env m, crlfOnly l.data = true := by
  have hsep : CleanStr ("--" ++ env.boundaryMixed) := CleanStr.append (by decide) hbm
  intro l hl
  unfold mixedFirstPartLines at hl
  split at hl
  · rcases List.mem_cons.mp hl with hl | hl
    · subst hl
      exact crlfOnly_of_cleanStr hsep
    · exact buildAlternativeLines_crlf _ _ _ _ hba l hl
  · split at hl
    · rcases List.mem_cons.mp hl with hl | hl
      · subst hl
        exact crlfOnly_of_cleanStr hsep
      · exact buildTextPart_crlf _ _ (by split <;> decide) l hl
    · rcases List.mem_cons.mp hl with hl | hl
      · subst hl
        exact crlfOnly_of_cleanStr hsep
      · exact buildTextPart_crlf _ _ (by decide) l hl

/-- Every line of the mixed body has only CRLF breaks. -/
theorem mixedBodyLines_crlf (env : EmlEnv) (m : Message)
    (hbm : CleanStr env.boundaryMixed) (hba : CleanStr env.boundaryAlt)
    (hatt : ∀ a ∈ jsAttachments m,
      CleanStr (jsOrS a.attachMimeTag "application/octet-stream") ∧
      CleanStr (extractBase64 (jsStr a.contentBase64))) :
    ∀ l ∈ mixedBodyLines env m, crlfOnly l.data = true := by
  intro l hl
  unfold mixedBodyLines at hl
  rw [mixedFold_eq] at hl
  simp only [List.mem_append, List.mem_singleton] at hl
  rcases hl with (hl | hl) | hl
  · exact mixedFirstPartLines_crlf env m hbm hba l hl
  · rcases List.mem_flatten.mp hl with ⟨blk, hblk, hlin⟩
    rcases List.mem_map.mp hblk with ⟨a, haM, he⟩
    subst he
    rcases hpa : buildAttachmentPart a with _ | pl
    · rw [hpa] at hlin
      simp at hlin
    · rw [hpa] at hlin
      have hpl : pl = attachmentPartLines a := by
        by_cases hz : extractBase64 (jsStr a.contentBase64) = ""
        · rw [buildAttachmentPart_empty a hz] at hpa
          cases hpa
        · rw [buildAttachmentPart_some a hz] at hpa
          injection hpa with h2
          exact h2.symm
      rcases List.mem_cons.mp hlin with hl2 | hl2
      · subst hl2
        exact crlfOnly_of_cleanStr (CleanStr.append (by decide) hbm)
      · exact attachmentPartLines_crlf a (hatt a haM).1 (hatt a haM).2 l (hpl ▸ hl2)
  · subst hl
    exact crlfOnly_of_cleanStr (CleanStr.append (CleanStr.append (by decide) hbm) (by decide))

/-- Full-output CRLF discipline from clean header lines and a CRLF-only
body. -/
theorem crlfOnly_overall {H : List String} {B : String}
    (hH : ∀ h ∈ H, CleanStr h) (hB : crlfOnly B.data = true) :
    crlfOnly (joinWith crlf H ++ crlf ++ crlf ++ B).data = true := by
  have e : (joinWith crlf H ++ crlf ++ crlf ++ B).data
      = (joinWith crlf H).data ++ '\r' :: '\n' :: ('\r' :: '\n' :: B.data) := by
    rw [String.data_append, String.data_append, String.data_append,
      List.append_assoc, List.append_assoc]
    rfl
  rw [e]
  apply crlfOnly_glue
  · exact crlfOnly_joinWith H (fun s hs => crlfOnly_of_cleanStr (hH s hs))
  · simp only [crlfOnly]
    rw [if_pos trivial, hB]
    simp

theorem data_ne_nil {s : String} (h : s ≠ "") : s.data ≠ [] := fun he => h (String.ext he)

theorem dashdash_data (b : String) : ("--" ++ b).data = '-' :: '-' :: b.data := by
  rw [String.data_append]
  rfl

/-- The first character of a CRLF-join of lines whose first line starts
with `c` is `c`. -/
theorem joinWith_head (sep : String) {x : String} (t : List String) {c : Char} {cs : List Char}
    (hx : x.data = c :: cs) : (joinWith sep (x :: t)).data.head? = some c := by
  cases t with
  | nil =>
    show x.data.head? = some c
    rw [hx]
    rfl
  | cons y t2 =>
    show (x ++ sep ++ joinWith sep (y :: t2)).data.head? = some c
    rw [String.data_append, String.data_append, hx]
    rfl

/-- A wrapped base64 string of a clean input never begins with CR or LF. -/
theorem wrapBase64_head {s : String} (h : CleanStr s) :
    (wrapBase64 s).data.head? ≠ some '\r' ∧ (wrapBase64 s).data.head? ≠ some '\n' := by
  unfold wrapBase64
  split
  · simp
  · rename_i hne
    rcases hd : s.data with _ | ⟨c, cs⟩
    · exact absurd (String.ext hd) hne
    · have hcl : c ≠ '\r' ∧ c ≠ '\n' := h c (by rw [hd]; simp)
      have hw : wrapLines s
          = (⟨(c :: cs).take 76⟩ : String) ::
            (chunksFuel cs.length ((c :: cs).drop 76)).map (fun l => (⟨l⟩ : String)) := by
        unfold wrapLines
        rw [hd]
        rfl
      have hh := joinWith_head crlf
        ((chunksFuel cs.length ((c :: cs).drop 76)).map (fun l => (⟨l⟩ : String)))
        (show ((⟨(c :: cs).take 76⟩ : String)).data = c :: cs.take 75 from rfl)
      rw [hw, hh]
      constructor <;> intro he <;> injection he with h2
      · exact hcl.1 h2
      · exact hcl.2 h2

/-- The mixed body always begins with the mixed boundary line. -/
theorem mixedBodyLines_shape (env : EmlEnv) (m : Message) :
    ∃ rest, mixedBodyLines env m = ("--" ++ env.boundaryMixed) :: rest := by
  unfold mixedBodyLines
  rw [mixedFold_eq]
  unfold mixedFirstPartLines
  split
  · exact ⟨_, rfl⟩
  · split
    · exact ⟨_, rfl⟩
    · exact ⟨_, rfl⟩

/-- Clean extra headers extend the pre-body header block. -/
theorem headers_ok_append {env : EmlEnv} {m : Message} (hd : CleanStr env.dateStr)
    {extra : List String} (hextra : ∀ h ∈ extra, h.data ≠ [] ∧ CleanStr h) :
    ∀ h ∈ baseHeaders env m ++ extra, h.data ≠ [] ∧ CleanStr h := by
  intro h hm
  rcases List.mem_append.mp hm with h1 | h1
  · exact baseHeaders_ok env m hd h h1
  · exact hextra h h1

/-- C9 (amended): in the serialization path the output is a header block
of non-empty single-line headers, exactly one blank line, and a body that
does not itself begin with a line break, and every line break in the
whole output is CRLF — whatever line-ending convention the input body
fields use — provided the boundary tokens and date rendering are free of
CR/LF (as `makeBoundary` and `toUTCString` guarantee) and every
attachment's raw mime tag and extracted base64 payload are free of CR/LF
(which the source does not enforce; see the counterexample). -/
theorem C9_crlf_discipline_amended (env : EmlEnv) (m : Message)
    (hbm : CleanStr env.boundaryMixed) (hba : CleanStr env.boundaryAlt)
    (hd : CleanStr env.dateStr)
    (hatt : ∀ a ∈ jsAttachments m,
      CleanStr (jsOrS a.attachMimeTag "application/octet-stream") ∧
      CleanStr (extractBase64 (jsStr a.contentBase64))) :
    ∃ H B, buildEmlFromMessage env m = joinWith crlf H ++ crlf ++ crlf ++ B ∧
      (∀ h ∈ H, h.data ≠ [] ∧ CleanStr h) ∧
      crlfOnly (buildEmlFromMessage env m).data = true ∧
      B.data.head? ≠ some '\r' ∧ B.data.head? ≠ some '\n' := by
  unfold buildEmlFromMessage
  split
  · -- multipart/mixed branch
    have hHok : ∀ h ∈ baseHeaders env m ++ [ctMixedLine env], h.data ≠ [] ∧ CleanStr h := by
      refine headers_ok_append hd ?_
      intro h hm
      simp only [List.mem_singleton] at hm
      subst hm
      unfold ctMixedLine
      exact ⟨label_append_ne _ (label_append_ne _ (by decide)),
        CleanStr.append (CleanStr.append (by decide) hbm) (by decide)⟩
    refine ⟨_, _, rfl, hHok, ?_, ?_⟩
    · exact crlfOnly_overall (fun s hs => (hHok s hs).2)
        (crlfOnly_joinWith _ (mixedBodyLines_crlf env m hbm hba hatt))
    · rcases mixedBodyLines_shape env m with ⟨rest, hr⟩
      rw [hr]
      rw [joinWith_head crlf rest (dashdash_data env.boundaryMixed)]
      constructor <;> intro he <;> injection he with h2 <;> exact absurd h2 (by decide)
  · split
    · -- multipart/alternative branch
      have hHok : ∀ h ∈ baseHeaders env m ++ [ctAltLine env], h.data ≠ [] ∧ CleanStr h := by
        refine headers_ok_append hd ?_
        intro h hm
        simp only [List.mem_singleton] at hm
        subst hm
        unfold ctAltLine
        exact ⟨label_append_ne _ (label_append_ne _ (by decide)),
          CleanStr.append (CleanStr.append (by decide) hba) (by decide)⟩
      refine ⟨_, _, rfl, hHok, ?_, ?_⟩
      · exact crlfOnly_overall (fun s hs => (hHok s hs).2)
          (crlfOnly_joinWith _ (buildAlternativeLines_crlf _ _ _ _ hba))
      · have hsh : ∃ rest,
            buildAlternativeLines env.boundaryAlt (msgBodyText m) (msgBodyHtml m) false
              = ("--" ++ env.boundaryAlt) :: rest := ⟨_, rfl⟩
        rcases hsh with ⟨rest, hr⟩
        rw [hr]
        rw [joinWith_head crlf rest (dashdash_data env.boundaryAlt)]
        constructor <;> intro he <;> injection he with h2 <;> exact absurd h2 (by decide)
    · split
      · -- single text part branch
        have hHok : ∀ h ∈ baseHeaders env m ++
            ["Content-Type: " ++ (if msgHasHtml m then "text/html" else "text/plain") ++
               "; charset=\"utf-8\"",
             "Content-Transfer-Encoding: base64"], h.data ≠ [] ∧ CleanStr h := by
          refine headers_ok_append hd ?_
          intro h hm
          simp only [List.mem_cons, List.not_mem_nil, or_false] at hm
          rcases hm with hm | hm
          · subst hm
            exact ⟨label_append_ne _ (label_append_ne _ (by decide)),
              CleanStr.append (CleanStr.append (by decide) (by split <;> decide)) (by decide)⟩
          · subst hm
            exact ⟨by decide, by decide⟩
        refine ⟨_, _, rfl, hHok, ?_, ?_⟩
        · exact crlfOnly_overall (fun s hs => (hHok s hs).2)
            (crlfOnly_wrapBase64 (base64EncodeUtf8_clean _))
        · exact wrapBase64_head (base64EncodeUtf8_clean _)
      · -- fully empty message branch
        have hHok : ∀ h ∈ baseHeaders env m ++
            ["Content-Type: text/plain; charset=\"utf-8\"",
             "Content-Transfer-Encoding: base64"], h.data ≠ [] ∧ CleanStr h := by
          refine headers_ok_append hd ?_
          intro h hm
          simp only [List.mem_cons, List.not_mem_nil, or_false] at hm
          rcases hm with hm | hm
          · subst hm
            exact ⟨by decide, by decide⟩
          · subst hm
            exact ⟨by decide, by decide⟩
        refine ⟨_, _, rfl, hHok, ?_, ?_⟩
        · exact crlfOnly_overall (fun s hs => (hHok s hs).2)
            (crlfOnly_wrapBase64 (base64EncodeUtf8_clean _))
        · exact wrapBase64_head (base64EncodeUtf8_clean _)

/-- A message whose plain body mixes LF, CR and CRLF line endings. -/
def c9msg : Message := { bodyContent := some "line1\nline2\rline3\r\nline4" }

theorem C9_witness :
    ∃ H B, buildEmlFromMessage c2env c9msg = joinWith crlf H ++ crlf ++ crlf ++ B ∧
      (∀ h ∈ H, h.data ≠ [] ∧ CleanStr h) ∧
      crlfOnly (buildEmlFromMessage c2env c9msg).data = true ∧
      B.data.head? ≠ some '\r' ∧ B.data.head? ≠ some '\n' :=
  C9_crlf_discipline_amended c2env c9msg (by decide) (by decide) (by decide)
    (by intro a ha; simp [jsAttachments, c9msg] at ha)

/-- An attachment payload carrying a bare LF, as parsers commonly emit. -/
def c9badmsg : Message := { attachments := some [{ contentBase64 := some "QQ==\nQg==" }] }

/-- C9 counterexample: the source copies the extracted attachment payload
into the body verbatim, so a payload containing a bare LF yields an
output in which not every line break is CRLF — the claim fails as stated
for this message. -/
theorem C9_counterexample :
    crlfOnly (buildEmlFromMessage ⟨"m", "a", ""⟩ c9badmsg).data = false := by decide
